import Mathlib

/-!
Verification of the PDF structural-content extraction engine
(`src-tauri/src/parsers/pdf.rs`) of the E-reader repository.

Rust strings are embedded as lists of characters (`Str := List Char`);
`str::len()` (a UTF-8 byte count in Rust) is embedded as `utf8Len`, the sum of
the UTF-8 sizes of the characters.  Pure functions of the source are translated
one to one; the file-system and PDF-object effects of the extraction pipeline
(`raw_image_data`, scratch-file writes, PNG encoding, content-stream parsing)
are abstracted as explicit inputs carrying each effect's outcome, so that the
pure control flow around them is preserved exactly.
-/

deriving instance DecidableEq for Except

namespace EReader

/-- Rust strings, embedded as their character sequences. -/
abbrev Str := List Char

/-- Byte length of a string, matching Rust `str::len()` (UTF-8 bytes). -/
def utf8Len (s : Str) : Nat := (s.map Char.utf8Size).sum

/-- Rust `char::is_whitespace` (the Unicode White_Space property). -/
def rustIsWhitespace (c : Char) : Bool :=
  c = ' ' || c = '\t' || c = '\n' || c.toNat = 0x0B || c.toNat = 0x0C || c = '\r' ||
  c.toNat = 0x85 || c.toNat = 0xA0 || c.toNat = 0x1680 ||
  (0x2000 ≤ c.toNat && c.toNat ≤ 0x200A) ||
  c.toNat = 0x2028 || c.toNat = 0x2029 || c.toNat = 0x202F || c.toNat = 0x205F ||
  c.toNat = 0x3000

/-- Rust `str::trim`: strip whitespace from both ends. -/
def rustTrim (s : Str) : Str :=
  ((s.dropWhile rustIsWhitespace).reverse.dropWhile rustIsWhitespace).reverse

def isAsciiDigit (c : Char) : Bool := '0' ≤ c && c ≤ '9'

def isAsciiUpper (c : Char) : Bool := 'A' ≤ c && c ≤ 'Z'

def isAsciiLower (c : Char) : Bool := 'a' ≤ c && c ≤ 'z'

def isAsciiAlpha (c : Char) : Bool := isAsciiUpper c || isAsciiLower c

def isAsciiAlphanumeric (c : Char) : Bool := isAsciiAlpha c || isAsciiDigit c

/-- Rust `char::to_ascii_lowercase`. -/
def toAsciiLower (c : Char) : Char :=
  if isAsciiUpper c then Char.ofNat (c.toNat + 32) else c

/-- `normalize_whitespace` (pdf.rs:225-233): NBSP, tab, CR and LF become
spaces, then the result is trimmed. -/
def normalize_whitespace (input : Str) : Str :=
  rustTrim (input.map (fun c =>
    if c.toNat = 0xA0 || c = '\t' || c = '\r' || c = '\n' then ' ' else c))

/-- `PDF_IMAGE_MARKER_PREFIX` (pdf.rs:20). -/
def pdfImageMarkerStart : Str := "[[PDF_IMAGE:".data

/-- `is_pdf_image_marker` (pdf.rs:925-928). -/
def is_pdf_image_marker (line : Str) : Bool :=
  pdfImageMarkerStart.isPrefixOf line && "]]".data.isSuffixOf line

/-- `is_probable_page_number` (pdf.rs:877-904). -/
def is_probable_page_number (line : Str) : Bool :=
  let trimmed := rustTrim line
  if trimmed.isEmpty || 24 < utf8Len trimmed then false
  else if trimmed.all isAsciiDigit then true
  else if "Page ".data.isPrefixOf trimmed &&
      (rustTrim (trimmed.drop 5)).all isAsciiDigit then true
  else
    -- `compact` removes ASCII spaces; the line matches when every remaining
    -- character is a digit or one of the separators and a digit is present.
    let compact := trimmed.filter (fun c => c ≠ ' ')
    compact.all (fun c => isAsciiDigit c || c = '/' || c = '-' || c = '–' || c = '_') &&
      compact.any isAsciiDigit

/-- `edge_line_indices` (pdf.rs:860-875).  Rust pushes 0, then 1 and len-1 when
len > 1, then len-2 when len > 3, and sorts and deduplicates; sorting plus
deduplication is realised with `insertionSort` and `dedup`. -/
def edge_line_indices (len : Nat) : List Nat :=
  if len = 0 then []
  else
    let indices := [0] ++ (if 1 < len then [1, len - 1] else []) ++
      (if 3 < len then [len - 2] else [])
    (indices.insertionSort (· ≤ ·)).dedup

/-- `is_repeated_edge_noise` (pdf.rs:906-923). -/
def is_repeated_edge_noise (line : Str) (total_pages seen seen_on_edge : Nat)
    (is_edge_line : Bool) : Bool :=
  if !is_edge_line || total_pages < 4 then false
  else if 90 < utf8Len line then false
  else if seen < 3 then false
  else decide (seen ≤ seen_on_edge * 2)

/-- Document-wide count of lines whose normalized text equals `key`
(the `line_counts` map of `clean_page_lines`, pdf.rs:807-821).  The Rust loop
skips lines whose normalized text is empty; for the nonempty keys the map is
queried with, the count below coincides with the map entry, because an
empty-normalized line never equals a nonempty key. -/
def line_count (pages : List (List Str)) (key : Str) : Nat :=
  (pages.map (fun lines => lines.countP (fun l => normalize_whitespace l == key))).sum

/-- Count of occurrences of `key` at edge positions within one page, walking
the page from line index `idx`. -/
def count_edge_in (key : Str) (edges : List Nat) : Nat → List Str → Nat
  | _, [] => 0
  | idx, l :: rest =>
    (if edges.contains idx && normalize_whitespace l == key then 1 else 0) +
      count_edge_in key edges (idx + 1) rest

/-- Document-wide count of edge-position occurrences of `key`
(the `edge_counts` map of `clean_page_lines`). -/
def edge_count (pages : List (List Str)) (key : Str) : Nat :=
  (pages.map (fun lines =>
    count_edge_in key (edge_line_indices lines.length) 0 lines)).sum

/-- The `filter_map` closure of `clean_page_lines` (pdf.rs:831-854) for one
line at index `idx`: an empty normalized line is dropped, an image marker is
kept unconditionally, a probable page number and repeated edge noise are
dropped, and everything else is kept in normalized form. -/
def clean_line_keep (pages : List (List Str)) (total_pages : Nat)
    (edges : List Nat) (idx : Nat) (line : Str) : Option Str :=
  let normalized := normalize_whitespace line
  if normalized.isEmpty then none
  else if is_pdf_image_marker normalized then some normalized
  else if is_probable_page_number normalized then none
  else if is_repeated_edge_noise normalized total_pages
      (line_count pages normalized) (edge_count pages normalized)
      (edges.contains idx) then none
  else some normalized

/-- The per-line filter of `clean_page_lines` (pdf.rs:824-857), walking one
page's lines from index `idx` and applying `clean_line_keep` to each. -/
def clean_one_page (pages : List (List Str)) (total_pages : Nat)
    (edges : List Nat) : Nat → List Str → List Str
  | _, [] => []
  | idx, line :: rest =>
    match clean_line_keep pages total_pages edges idx line with
    | none => clean_one_page pages total_pages edges (idx + 1) rest
    | some s => s :: clean_one_page pages total_pages edges (idx + 1) rest

/-- `clean_page_lines` (pdf.rs:801-858). -/
def clean_page_lines (page_lines : List (List Str)) : List (List Str) :=
  if page_lines.isEmpty then page_lines
  else
    page_lines.map (fun lines =>
      clean_one_page page_lines page_lines.length
        (edge_line_indices lines.length) 0 lines)

/-- The space-counting prelude of the inner scan of
`collapse_spaced_uppercase_letters` (pdf.rs:393-398): consume leading spaces,
returning how many were consumed and the remainder. -/
def countSpaces : Str → Nat × Str
  | [] => (0, [])
  | c :: cs =>
    if c = ' ' then
      let p := countSpaces cs
      (p.1 + 1, p.2)
    else (0, c :: cs)

/-- The inner `loop` of `collapse_spaced_uppercase_letters` (pdf.rs:393-405):
starting after an uppercase letter already in `acc`, repeatedly consume exactly
one space followed by another uppercase ASCII letter.  On a break the consumed
spaces are left consumed (Rust leaves `j` past them).  `fuel` bounds the
recursion; each step consumes at least two characters, so `fuel = cs.length`
always suffices. -/
def takeRun : Nat → Str → Str → Str × Str
  | 0, cs, acc => (acc, cs)
  | fuel + 1, cs, acc =>
    let p := countSpaces cs
    if p.1 = 1 then
      match p.2 with
      | d :: cs3 =>
        if isAsciiUpper d then takeRun fuel cs3 (acc ++ [d]) else (acc, p.2)
      | [] => (acc, [])
    else (acc, p.2)

/-- The heading-suffix table of `split_merged_uppercase_heading_word`
(pdf.rs:422-434). -/
def headingSuffixes : List Str :=
  ["REPORT".data, "PAPER".data, "ABSTRACT".data, "APPENDIX".data,
   "INTRODUCTION".data, "CONCLUSION".data, "CONCLUSIONS".data,
   "METHOD".data, "METHODS".data, "RESULT".data, "RESULTS".data]

/-- `split_merged_uppercase_heading_word` (pdf.rs:421-441).  The word is a run
of uppercase ASCII letters, so its char count equals its byte count and char
slicing matches Rust's byte slicing. -/
def split_merged_uppercase_heading_word (word : Str) : Str :=
  match headingSuffixes.find?
      (fun s => word.length > s.length + 3 && s.isSuffixOf word) with
  | some s => word.take (word.length - s.length) ++ ' ' :: s
  | none => word

/-- The outer scan of `collapse_spaced_uppercase_letters` (pdf.rs:381-419).
`fuel` bounds the outer iterations; each iteration consumes at least one
character, so `fuel = cs.length` always suffices. -/
def collapseAux : Nat → Str → Str
  | _, [] => []
  | 0, cs => cs
  | fuel + 1, c :: rest =>
    if isAsciiUpper c then
      let pr := takeRun rest.length rest [c]
      if 3 ≤ pr.1.length then
        split_merged_uppercase_heading_word pr.1 ++ collapseAux fuel pr.2
      else c :: collapseAux fuel rest
    else c :: collapseAux fuel rest

/-- `collapse_spaced_uppercase_letters` (pdf.rs:381-419). -/
def collapse_spaced_uppercase_letters (input : Str) : Str :=
  collapseAux input.length input

/-- `normalize_pdf_line_text` (pdf.rs:377-379). -/
def normalize_pdf_line_text (line : Str) : Str :=
  collapse_spaced_uppercase_letters line

/-- Rust `str::split_whitespace`, accumulating the current token reversed. -/
def splitWsAux : Str → Str → List Str
  | [], acc => if acc.isEmpty then [] else [acc.reverse]
  | c :: rest, acc =>
    if rustIsWhitespace c then
      if acc.isEmpty then splitWsAux rest []
      else acc.reverse :: splitWsAux rest []
    else splitWsAux rest (c :: acc)

def splitWs (s : Str) : List Str := splitWsAux s []

/-- `is_ascii_alpha_word` (pdf.rs:502-504). -/
def is_ascii_alpha_word (word : Str) : Bool :=
  !word.isEmpty && word.all (fun c => isAsciiAlpha c)

/-- The stopword table of `is_common_short_word` (pdf.rs:506-528). -/
def commonShortWords : List Str :=
  ["a".data, "an".data, "and".data, "as".data, "at".data, "by".data,
   "for".data, "from".data, "in".data, "into".data, "is".data, "it".data,
   "of".data, "on".data, "or".data, "the".data, "to".data, "with".data]

/-- `is_common_short_word` (pdf.rs:506-528). -/
def is_common_short_word (word : Str) : Bool :=
  commonShortWords.contains (word.map toAsciiLower)

/-- `should_merge_two_broken_tokens` (pdf.rs:470-486).  Both tokens are ASCII
alphabetic after the first guard, so char counts equal Rust's byte counts. -/
def should_merge_two_broken_tokens (left right : Str) : Bool :=
  if !is_ascii_alpha_word left || !is_ascii_alpha_word right then false
  else if !(2 ≤ left.length && left.length ≤ 4) || right.length < 2 then false
  else if is_common_short_word left then false
  else
    let total := left.length + right.length
    let right_starts_lower :=
      match right.head? with
      | some c => isAsciiLower c
      | none => false
    let left_capitalized :=
      match left.head? with
      | some c => isAsciiUpper c
      | none => false
    let looks_like_title_split :=
      left_capitalized && right.length ≤ 3 && 5 ≤ total
    let looks_like_body_split := 6 ≤ total && 4 ≤ right.length
    right_starts_lower && (looks_like_body_split || looks_like_title_split)

/-- `should_merge_three_broken_tokens` (pdf.rs:488-500). -/
def should_merge_three_broken_tokens (a b c : Str) : Bool :=
  if !is_ascii_alpha_word a || !is_ascii_alpha_word b || !is_ascii_alpha_word c then false
  else if !(2 ≤ a.length && a.length ≤ 3) || b.length ≠ 1 || c.length < 3 then false
  else if is_common_short_word a then false
  else
    let c_starts_lower :=
      match c.head? with
      | some ch => isAsciiLower ch
      | none => false
    c_starts_lower && 7 ≤ a.length + b.length + c.length

/-- The token-merging loop of `normalize_pdf_paragraph_text` (pdf.rs:452-465).
On a merge the index stays put, otherwise it advances; `fuel` bounds the total
number of steps, and `2 * tokens.length` always suffices. -/
def merge_broken_tokens : Nat → List Str → List Str
  | 0, ts => ts
  | _, [] => []
  | _, [a] => [a]
  | fuel + 1, a :: b :: rest =>
    if should_merge_two_broken_tokens a b then
      merge_broken_tokens fuel ((a ++ b) :: rest)
    else
      match rest with
      | c :: rest' =>
        if should_merge_three_broken_tokens a b c then
          merge_broken_tokens fuel ((a ++ b ++ c) :: rest')
        else a :: merge_broken_tokens fuel (b :: c :: rest')
      | [] => [a, b]

/-- `normalize_pdf_paragraph_text` (pdf.rs:443-468). -/
def normalize_pdf_paragraph_text (text : Str) : Str :=
  let tokens := splitWs text
  if tokens.length < 2 then rustTrim text
  else
    List.intercalate " ".data (merge_broken_tokens (2 * tokens.length) tokens)

/-- Non-overlapping count of `"  "` matches, as Rust
`line.matches("  ").count()` (pdf.rs:934). -/
def countDoubleSpace : Str → Nat
  | ' ' :: ' ' :: rest => countDoubleSpace rest + 1
  | _ :: rest => countDoubleSpace rest
  | [] => 0

/-- `is_tabular_line` (pdf.rs:930-947). -/
def is_tabular_line (line : Str) : Bool :=
  if utf8Len line < 8 then false
  else if 2 ≤ countDoubleSpace line then true
  else
    let alpha_tokens := ((splitWs line).filter (fun t => t.any isAsciiAlpha)).length
    let numeric_tokens := ((splitWs line).filter (fun t => t.any isAsciiDigit)).length
    2 ≤ alpha_tokens && 2 ≤ numeric_tokens && line.contains ' '

/-- `append_pdf_line_to_paragraph` (pdf.rs:351-375). -/
def append_pdf_line_to_paragraph (current line : Str) : Str :=
  let line := rustTrim line
  if line.isEmpty then current
  else if current.isEmpty then line
  else if "-".data.isSuffixOf current &&
      (match line.head? with
       | some c => isAsciiAlpha c && isAsciiLower c
       | none => false) then
    current.dropLast ++ line
  else current ++ ' ' :: line

/-- The accumulator of `split_pdf_paragraphs` (pdf.rs:235-306):
finished paragraphs, the current paragraph buffer, and whether the current
buffer holds tabular lines. -/
structure SplitState where
  paragraphs : List Str
  current : Str
  current_is_table : Bool
deriving DecidableEq, Repr

/-- One iteration of the line loop of `split_pdf_paragraphs`
(pdf.rs:240-295). -/
def split_step (st : SplitState) (line : Str) : SplitState :=
  let trimmed := rustTrim line
  if is_pdf_image_marker trimmed then
    let ps := if st.current.isEmpty then st.paragraphs
      else st.paragraphs ++ [rustTrim st.current]
    { paragraphs := ps ++ [trimmed], current := [],
      current_is_table := if st.current.isEmpty then st.current_is_table else false }
  else if trimmed.isEmpty then
    if st.current.isEmpty then st
    else { paragraphs := st.paragraphs ++ [rustTrim st.current], current := [],
           current_is_table := false }
  else
    let line_is_table := is_tabular_line trimmed
    let normalized_line := normalize_pdf_line_text trimmed
    if st.current.isEmpty then
      { paragraphs := st.paragraphs, current := normalized_line,
        current_is_table := line_is_table }
    else if st.current_is_table || line_is_table then
      if st.current_is_table && line_is_table then
        { paragraphs := st.paragraphs,
          current := st.current ++ '\n' :: normalized_line,
          current_is_table := st.current_is_table }
      else
        { paragraphs := st.paragraphs ++ [normalize_pdf_paragraph_text st.current],
          current := normalized_line, current_is_table := line_is_table }
    else
      let ends_sentence :=
        match st.current.getLast? with
        | some c => c = '.' || c = '!' || c = '?' || c = ':'
        | none => false
      if ends_sentence || 800 < utf8Len st.current then
        { paragraphs := st.paragraphs ++ [normalize_pdf_paragraph_text st.current],
          current := normalized_line, current_is_table := st.current_is_table }
      else
        { paragraphs := st.paragraphs,
          current := append_pdf_line_to_paragraph st.current normalized_line,
          current_is_table := st.current_is_table }

/-- The placeholder paragraph (pdf.rs:302 and pdf.rs:184). -/
def noReadableContent : Str := "No readable content extracted from PDF.".data

/-- `split_pdf_paragraphs` (pdf.rs:235-306). -/
def split_pdf_paragraphs (lines : List Str) : List Str :=
  let st := lines.foldl split_step ⟨[], [], false⟩
  let ps := if st.current.isEmpty then st.paragraphs
    else st.paragraphs ++ [normalize_pdf_paragraph_text st.current]
  if ps.isEmpty then [noReadableContent] else ps

/-- Decidable form of "every occurrence of `key` (as a normalized line) in
this page, walked from index `idx`, sits at an edge index". -/
def all_edges_in_page (key : Str) (edges : List Nat) : Nat → List Str → Bool
  | _, [] => true
  | idx, l :: rest =>
    (normalize_whitespace l != key || edges.contains idx) &&
      all_edges_in_page key edges (idx + 1) rest

/-- Decidable form of "every occurrence of `key` in the document sits at an
edge position". -/
def all_occurrences_on_edges (pages : List (List Str)) (key : Str) : Bool :=
  pages.all (fun lines => all_edges_in_page key (edge_line_indices lines.length) 0 lines)

/-- `looks_like_figure_or_table_caption` (pdf.rs:738-754). -/
def looks_like_figure_or_table_caption (line : Str) : Bool :=
  let trimmed := rustTrim line
  if trimmed.isEmpty then false
  else
    let lower := trimmed.map toAsciiLower
    let starts_with_caption :=
      "figure".data.isPrefixOf lower || "fig.".data.isPrefixOf lower ||
      "fig ".data.isPrefixOf lower || "table".data.isPrefixOf lower ||
      "图".data.isPrefixOf trimmed || "表".data.isPrefixOf trimmed
    starts_with_caption && trimmed.any isAsciiDigit

/-- The merge walk of `insert_markers_after_captions` (pdf.rs:716-735): push
each line; immediately after a caption-shaped line push the next marker, if
any are left; leftover markers are appended at the end. -/
def insert_markers_go : List Str → List Str → List Str
  | [], ms => ms
  | l :: rest, ms =>
    if looks_like_figure_or_table_caption l then
      match ms with
      | m :: ms' => l :: m :: insert_markers_go rest ms'
      | [] => l :: insert_markers_go rest []
    else l :: insert_markers_go rest ms

/-- `insert_markers_after_captions` (pdf.rs:694-736), with the Rust function's
two early returns (`markers` empty; no caption index found) made explicit.
The index-based single pass over `lines` is realised as the direct recursion
`insert_markers_go`. -/
def insert_markers_after_captions (lines markers : List Str) : List Str :=
  if markers.isEmpty then lines
  else if lines.all (fun l => !looks_like_figure_or_table_caption l) then
    lines ++ markers
  else insert_markers_go lines markers

/-! ### The native content-stream walk of `extract_text_by_page`

The `pdf` crate's operators are embedded as `PdfOp`; text payloads carry the
already-decoded string (`to_string_lossy`), an adjusted-text-draw array
carries `some` for its text sub-parts and `none` for spacing entries, and an
inline-image operator carries the result of `build_image_marker` for its image
(`none` when the resolver produced no marker). -/

inductive PdfOp where
  | textDraw (s : Str)
  | textDrawAdjusted (parts : List (Option Str))
  | textNewline
  | xobjectDraw (name : Str)
  | inlineImage (marker : Option Str)
  | otherOp
deriving DecidableEq, Repr

/-- `append_text_fragment` (pdf.rs:206-215). -/
def append_text_fragment (line : Str) (fragment : Str) : Str :=
  let fragment := rustTrim fragment
  if fragment.isEmpty then line
  else if !line.isEmpty && !(" ".data.isSuffixOf line) then
    line ++ ' ' :: fragment
  else line ++ fragment

/-- `flush_line` (pdf.rs:217-223), returning the updated line list and the
cleared accumulator. -/
def flush_line (lines : List Str) (current_line : Str) : List Str × Str :=
  let normalized := normalize_whitespace current_line
  (if normalized.isEmpty then lines else lines ++ [normalized], [])

/-- The walk state of the operator loop of `extract_text_by_page`
(pdf.rs:103-157): collected lines, the current line accumulator, and the
XObject resource names already drawn. -/
structure WalkState where
  lines : List Str
  current : Str
  used : List Str
deriving DecidableEq, Repr

/-- One iteration of the operator loop of `extract_text_by_page`
(pdf.rs:124-157).  `markers` is the page's resource-name → markers map built
by `collect_page_image_markers`, embedded as an association list. -/
def walk_step (markers : List (Str × List Str)) (st : WalkState) (op : PdfOp) :
    WalkState :=
  match op with
  | .textDraw s => { st with current := append_text_fragment st.current s }
  | .textDrawAdjusted parts =>
    { st with current := parts.foldl (fun cur p =>
        match p with
        | some s => append_text_fragment cur s
        | none => cur) st.current }
  | .textNewline =>
    let p := flush_line st.lines st.current
    { lines := p.1, current := p.2, used := st.used }
  | .xobjectDraw name =>
    match markers.lookup name with
    | some ms =>
      let p := flush_line st.lines st.current
      { lines := p.1 ++ ms, current := p.2, used := st.used ++ [name] }
    | none => st
  | .inlineImage m =>
    match m with
    | some marker => { st with lines := st.lines ++ [marker] }
    | none => st
  | .otherOp => st

/-- The full walk of one page's parsed operator list (pdf.rs:113-169): fold the
operator loop, append the markers of resources never explicitly drawn
(pdf.rs:159-166; the Rust `HashMap` iteration order is realised as the
association-list order), then perform the final flush (pdf.rs:169). -/
def walk_page (markers : List (Str × List Str)) (ops : List PdfOp) : List Str :=
  let st := ops.foldl (walk_step markers) ⟨[], [], []⟩
  let withFallback := st.lines ++
    ((markers.filter (fun p => !(st.used.contains p.1))).map (fun p => p.2)).flatten
  (flush_line withFallback st.current).1

/-- One page of an opened document, as `extract_text_by_page` consumes it:
the parsed content stream (absent, failed, or a list of operators) and the
precomputed resource-name → markers map. -/
structure PdfPageModel where
  contents : Option (Except Str (List PdfOp))
  xmarkers : List (Str × List Str)
deriving DecidableEq, Repr

/-- The raw lines of one page (pdf.rs:103-170): a page without a content
stream yields no lines; a content stream that fails to parse is a page-level
error, which `extract_text_by_page` propagates with `?`. -/
def page_raw_lines (page : PdfPageModel) : Except Str (List Str) :=
  match page.contents with
  | none => .ok []
  | some (.error e) => .error e
  | some (.ok ops) => .ok (walk_page page.xmarkers ops)

/-- The page loop of `extract_text_by_page` (pdf.rs:100-171): each page either
fails to read (`Except.error` in the document list) or parses; any failure is
propagated immediately by `?`, aborting the loop. -/
def collect_raw : List (Except Str PdfPageModel) → Except Str (List (List Str))
  | [] => .ok []
  | p :: rest =>
    match p with
    | .error e => .error e
    | .ok page =>
      match page_raw_lines page with
      | .error e => .error e
      | .ok lines =>
        match collect_raw rest with
        | .error e => .error e
        | .ok ls => .ok (lines :: ls)

/-- The human-facing page label `format!("Page {}", idx + 1)`. -/
def pageLabel (n : Nat) : Str := "Page ".data ++ (Nat.repr n).data

/-- The page-assembly loop of `extract_text_by_page` (pdf.rs:176-179). -/
def assemble_go : Nat → List (List Str) → List (Str × List Str)
  | _, [] => []
  | idx, lines :: rest =>
    (pageLabel (idx + 1), split_pdf_paragraphs lines) :: assemble_go (idx + 1) rest

/-- Paragraph assembly over the cleaned pages plus the empty-document
placeholder (pdf.rs:174-188). -/
def assemble_pages (cleaned : List (List Str)) : List (Str × List Str) :=
  let pages := assemble_go 0 cleaned
  if pages.isEmpty then [(pageLabel 1, [noReadableContent])] else pages

/-- The native path of `extract_text_by_page` (pdf.rs:95-188), for a document
that opened successfully: collect every page's raw lines (aborting on the
first page failure), then clean and assemble. -/
def extract_text_by_page_native (doc : List (Except Str PdfPageModel)) :
    Except Str (List (Str × List Str)) :=
  match collect_raw doc with
  | .error e => .error e
  | .ok raw => .ok (assemble_pages (clean_page_lines raw))

/-- Whether a page of the document model fails: either the page itself cannot
be read, or its content stream fails to parse. -/
def page_failed : Except Str PdfPageModel → Bool
  | .error _ => true
  | .ok page =>
    match page.contents with
    | some (.error _) => true
    | _ => false

/-! ### `build_image_marker`

The file-system and PDF-object effects of `build_image_marker`
(pdf.rs:1097-1158) are abstracted as an environment carrying each effect's
outcome: the result of `raw_image_data` (the raw byte count and the declared
stream filter), whether the scratch-file write succeeds, and the results of
`image_data` and `encode_pdf_image_png` for the decode-and-re-encode arm. -/

inductive PdfStreamFilter where
  | dct
  | jpx
  | jbig2
  | otherFilter
deriving DecidableEq, Repr

structure PdfImageEnv where
  raw_image_data : Option (Nat × Option PdfStreamFilter)
  write_ok : Bool
  image_pixels : Option Nat
  png_encode_len : Option Nat
deriving DecidableEq, Repr

/-- `sanitize_filename` (pdf.rs:963-977). -/
def sanitize_filename (name : Str) : Str :=
  let out := name.map (fun ch =>
    if isAsciiAlphanumeric ch || ch = '-' || ch = '_' || ch = '.' then ch else '_')
  if out.isEmpty then "pdf".data else out

/-- `PathBuf::join` on Unix. -/
def path_join (dir name : Str) : Str := dir ++ '/' :: name

/-- The scratch file name `format!("{}_{}_{}{ext}", page_label,
sanitize_filename(image_name), len)` used by each arm of
`build_image_marker`. -/
def image_file_name (page_label image_name : Str) (len : Nat) (ext : Str) : Str :=
  page_label ++ '_' :: sanitize_filename image_name ++ '_' :: (Nat.repr len).data ++ ext

/-- The marker string `format!("{prefix}{path}]]", ...)` (pdf.rs:1153-1157). -/
def marker_of_path (abs_path : Str) : Str :=
  pdfImageMarkerStart ++ abs_path ++ "]]".data

/-- `build_image_marker` (pdf.rs:1097-1158). -/
def build_image_marker (env : PdfImageEnv) (page_label image_name output_dir : Str) :
    Option Str :=
  match env.raw_image_data with
  | none => none
  | some (dataLen, filter) =>
    match filter with
    | some .dct =>
      let abs_path := path_join output_dir
        (image_file_name page_label image_name dataLen ".jpg".data)
      if env.write_ok then some (marker_of_path abs_path) else none
    | some .jpx =>
      let abs_path := path_join output_dir
        (image_file_name page_label image_name dataLen ".jp2".data)
      if env.write_ok then some (marker_of_path abs_path) else none
    | some .jbig2 => none
    | _ =>
      match env.image_pixels with
      | none => none
      | some _ =>
        match env.png_encode_len with
        | none => none
        | some pngLen =>
          let abs_path := path_join output_dir
            (image_file_name page_label image_name pngLen ".png".data)
          if env.write_ok then some (marker_of_path abs_path) else none

/-! ## Shared helper lemmas -/

theorem isPrefixOf_append_self (a b : Str) : a.isPrefixOf (a ++ b) = true := by
  rw [List.isPrefixOf_iff_prefix]
  exact ⟨b, rfl⟩

theorem isSuffixOf_append_self (a b : Str) : b.isSuffixOf (a ++ b) = true := by
  rw [List.isSuffixOf_iff_suffix]
  exact ⟨a, rfl⟩

theorem is_pdf_image_marker_marker_of_path (p : Str) :
    is_pdf_image_marker (marker_of_path p) = true := by
  unfold is_pdf_image_marker marker_of_path
  rw [Bool.and_eq_true]
  constructor
  · rw [List.append_assoc]
    exact isPrefixOf_append_self pdfImageMarkerStart (p ++ "]]".data)
  · exact isSuffixOf_append_self (pdfImageMarkerStart ++ p) "]]".data

/-! ## C10 -/

/-- C10: for every image that `build_image_marker` successfully resolves, the
returned marker starts with `[[PDF_IMAGE:` and ends with `]]`, so
`is_pdf_image_marker` recognizes it: the token producer and the token
recognizer agree on every produced token. -/
theorem C10_producer_recognizer_agree (env : PdfImageEnv)
    (page_label image_name output_dir m : Str)
    (h : build_image_marker env page_label image_name output_dir = some m) :
    is_pdf_image_marker m = true := by
  unfold build_image_marker at h
  repeat' split at h
  all_goals first
  | exact Option.noConfusion h
  | (injection h with h; exact h ▸ is_pdf_image_marker_marker_of_path _)

/-- Witness for C10 at a concrete JPEG-stream image. -/
theorem C10_witness :
    is_pdf_image_marker "[[PDF_IMAGE:/tmp/out/p1_Im1_7.jpg]]".data = true :=
  C10_producer_recognizer_agree ⟨some (7, some .dct), true, none, none⟩
    "p1".data "Im1".data "/tmp/out".data
    "[[PDF_IMAGE:/tmp/out/p1_Im1_7.jpg]]".data (by decide)

/-! ## C4 -/

/-- The inline-image marker used in the C4 demonstration. -/
def c4marker : Str := "[[PDF_IMAGE:/tmp/x.png]]".data

/-- The operator list of the C4 demonstration: text, an inline image, more
text, then a newline. -/
def c4ops : List PdfOp :=
  [.textDraw "abc".data, .inlineImage (some c4marker),
   .textDraw "def".data, .textNewline]

/-- C4 counterexample: on an inline-image operator the accumulator is NOT
flushed first.  Walking `[textDraw "abc", inlineImage, textDraw "def",
newline]` yields `[marker, "abc def"]` — the text before the image stays in
the accumulator and lands after the marker — whereas the claimed flush-first
behaviour would yield `["abc", marker, "def"]`. -/
theorem C4_counterexample :
    walk_page [] c4ops = [c4marker, "abc def".data] ∧
    walk_page [] c4ops ≠ ["abc".data, c4marker, "def".data] := by
  constructor
  · decide
  · decide

/-- C4 (amended): on an inline-image operator with a resolved marker the
marker is pushed directly into the line list without flushing the current
accumulator, which continues to accumulate; when the accumulator is later
flushed, its text therefore lands after the marker.  A failed resolution
leaves the state unchanged. -/
theorem C4_inline_image_no_flush (markers : List (Str × List Str))
    (st : WalkState) (m : Str)
    (h : normalize_whitespace st.current ≠ []) :
    walk_step markers st (.inlineImage (some m)) =
      { st with lines := st.lines ++ [m] } ∧
    walk_step markers st (.inlineImage none) = st ∧
    walk_step markers (walk_step markers st (.inlineImage (some m))) .textNewline =
      { lines := st.lines ++ [m, normalize_whitespace st.current],
        current := [], used := st.used } := by
  refine ⟨rfl, rfl, ?_⟩
  simp only [walk_step, flush_line]
  rw [List.isEmpty_eq_false.mpr h]
  simp

/-- Witness for C4 at a concrete state. -/
theorem C4_witness :
    walk_step [] ⟨[], "ab".data, []⟩ (.inlineImage (some "[[PDF_IMAGE:x]]".data)) =
      ⟨["[[PDF_IMAGE:x]]".data], "ab".data, []⟩ ∧
    walk_step [] ⟨[], "ab".data, []⟩ (.inlineImage none) = ⟨[], "ab".data, []⟩ ∧
    walk_step [] (walk_step [] ⟨[], "ab".data, []⟩
        (.inlineImage (some "[[PDF_IMAGE:x]]".data))) .textNewline =
      ⟨["[[PDF_IMAGE:x]]".data, "ab".data], [], []⟩ :=
  C4_inline_image_no_flush [] ⟨[], "ab".data, []⟩ "[[PDF_IMAGE:x]]".data (by decide)

/-! ## C7 -/

/-- C7 counterexample: `"a  b  c"` has two runs of two consecutive spaces but
is only 7 bytes long, so `is_tabular_line` rejects it (the function requires
at least 8 bytes), and paragraph assembly space-merges it with the following
prose line into the single flowing line `"a b c and others."`. -/
theorem C7_counterexample :
    countDoubleSpace "a  b  c".data = 2 ∧
    is_tabular_line "a  b  c".data = false ∧
    split_pdf_paragraphs ["a  b  c".data, "and others.".data] =
      ["a b c and others.".data] := by
  refine ⟨by decide, by decide, by decide⟩

/-- C7 (amended): every line of at least 8 bytes with at least 2
(non-overlapping) matches of two consecutive spaces is classified tabular, and
in paragraph assembly a tabular line is never space-joined with the
accumulating paragraph: the new accumulator is either the tabular line itself
(fresh or after a flush) or the old tabular accumulator extended with a
newline separator, and when the accumulator held non-tabular prose the
tabular line closes it as a finished paragraph. -/
theorem C7_tabular_preserved :
    (∀ l : Str, 8 ≤ utf8Len l → 2 ≤ countDoubleSpace l →
      is_tabular_line l = true) ∧
    (∀ (st : SplitState) (line : Str),
      is_pdf_image_marker (rustTrim line) = false →
      rustTrim line ≠ [] →
      is_tabular_line (rustTrim line) = true →
      ((split_step st line).current = normalize_pdf_line_text (rustTrim line) ∨
        (st.current_is_table = true ∧ st.current ≠ [] ∧
          (split_step st line).current =
            st.current ++ '\n' :: normalize_pdf_line_text (rustTrim line))) ∧
      (st.current ≠ [] → st.current_is_table = false →
        (split_step st line).paragraphs =
          st.paragraphs ++ [normalize_pdf_paragraph_text st.current])) := by
  constructor
  · intro l hlen hcnt
    unfold is_tabular_line
    rw [if_neg (by omega), if_pos (by omega)]
  · intro st line hmark hne htab
    have hempty : (rustTrim line).isEmpty = false := List.isEmpty_eq_false.mpr hne
    cases hcur : st.current.isEmpty with
    | true =>
      have hc : st.current = [] := List.isEmpty_eq_true.mp hcur
      refine ⟨Or.inl ?_, fun hne' _ => absurd hc hne'⟩
      simp only [split_step, hmark, Bool.false_eq_true, if_false, hempty, hcur,
        if_true]
    | false =>
      have hcne : st.current ≠ [] := List.isEmpty_eq_false.mp hcur
      cases hct : st.current_is_table with
      | true =>
        constructor
        · refine Or.inr ⟨rfl, hcne, ?_⟩
          simp only [split_step, hmark, Bool.false_eq_true, if_false, hempty,
            hcur, htab, hct, Bool.or_true, Bool.true_or, Bool.and_true,
            Bool.true_and, if_true]
        · intro _ h2
          exact Bool.noConfusion h2
      | false =>
        constructor
        · refine Or.inl ?_
          simp only [split_step, hmark, Bool.false_eq_true, if_false, hempty,
            hcur, htab, hct, Bool.or_true, Bool.true_or, Bool.and_true,
            Bool.false_and, if_true]
        · intro _ _
          simp only [split_step, hmark, Bool.false_eq_true, if_false, hempty,
            hcur, htab, hct, Bool.or_true, Bool.true_or, Bool.and_true,
            Bool.false_and, if_true]

/-- Witness for C7 at a concrete tabular line and concrete states. -/
theorem C7_witness :
    is_tabular_line "ab  cd  e".data = true ∧
    (((split_step ⟨[], [], false⟩ "ab  cd  ef".data).current =
        normalize_pdf_line_text (rustTrim "ab  cd  ef".data) ∨
      ((false : Bool) = true ∧ ([] : Str) ≠ [] ∧
        (split_step ⟨[], [], false⟩ "ab  cd  ef".data).current =
          [] ++ '\n' :: normalize_pdf_line_text (rustTrim "ab  cd  ef".data))) ∧
     (([] : Str) ≠ [] → (false : Bool) = false →
       (split_step ⟨[], [], false⟩ "ab  cd  ef".data).paragraphs =
         [] ++ [normalize_pdf_paragraph_text []])) :=
  ⟨C7_tabular_preserved.1 "ab  cd  e".data (by decide) (by decide),
   C7_tabular_preserved.2 ⟨[], [], false⟩ "ab  cd  ef".data
     (by decide) (by decide) (by decide)⟩

/-! ## C9 -/

/-- A run of letters laid out with exactly one space between consecutive
letters, starting after the first letter: `spaced_tail [E, C] = " E C"`. -/
def spaced_tail : Str → Str
  | [] => []
  | d :: r => ' ' :: d :: spaced_tail r

/-- A run of letters laid out with exactly one space between consecutive
letters: `spaced_run [T, E, C] = "T E C"`. -/
def spaced_run : Str → Str
  | [] => []
  | c :: rest => c :: spaced_tail rest

theorem spaced_tail_length (r : Str) : (spaced_tail r).length = 2 * r.length := by
  induction r with
  | nil => rfl
  | cons d r ih => simp [spaced_tail, ih]; omega

theorem uprChar_ne_space (c : Char) (h : isAsciiUpper c = true) : c ≠ ' ' := by
  intro hc
  rw [hc] at h
  exact absurd h (by decide)

theorem takeRun_spaced_tail :
    ∀ (rest : Str) (acc : Str) (fuel : Nat),
      (∀ d ∈ rest, isAsciiUpper d = true) → rest.length ≤ fuel →
      takeRun fuel (spaced_tail rest) acc = (acc ++ rest, []) := by
  intro rest
  induction rest with
  | nil =>
    intro acc fuel _ _
    cases fuel with
    | zero => simp [takeRun, spaced_tail]
    | succ f => simp [takeRun, spaced_tail, countSpaces]
  | cons d r ih =>
    intro acc fuel hall hf
    cases fuel with
    | zero => simp at hf
    | succ f =>
      have hd : isAsciiUpper d = true := hall d (List.mem_cons_self d r)
      have hdr : ∀ e ∈ r, isAsciiUpper e = true :=
        fun e he => hall e (List.mem_cons_of_mem d he)
      have hcs : countSpaces (spaced_tail (d :: r)) = (1, d :: spaced_tail r) := by
        simp [spaced_tail, countSpaces, uprChar_ne_space d hd]
      simp only [takeRun, hcs, hd, if_true, if_pos rfl]
      rw [ih (acc ++ [d]) f hdr (by simp at hf; omega)]
      simp

theorem collapseAux_nil (fuel : Nat) : collapseAux fuel [] = [] := by
  cases fuel <;> rfl

theorem collapse_of_spaced_run (L : Str)
    (h : ∀ c ∈ L, isAsciiUpper c = true) (hlen : 3 ≤ L.length) :
    collapse_spaced_uppercase_letters (spaced_run L) =
      split_merged_uppercase_heading_word L := by
  cases L with
  | nil => simp at hlen
  | cons c rest =>
    have hc : isAsciiUpper c = true := h c (List.mem_cons_self c rest)
    have hrest : ∀ d ∈ rest, isAsciiUpper d = true :=
      fun d hd => h d (List.mem_cons_of_mem c hd)
    have hrun : takeRun (spaced_tail rest).length (spaced_tail rest) [c] =
        ([c] ++ rest, []) :=
      takeRun_spaced_tail rest [c] (spaced_tail rest).length hrest
        (by rw [spaced_tail_length]; omega)
    show collapseAux (spaced_run (c :: rest)).length (spaced_run (c :: rest)) = _
    simp only [spaced_run, List.length_cons]
    simp only [collapseAux, hc, if_true, hrun]
    have h3 : 3 ≤ ([c] ++ rest).length := by simpa using hlen
    rw [if_pos h3]
    simp

/-- C9 counterexample: for the run `"A B C R E P O R T"` the collapsed word
`"ABCREPORT"` ends with the recognized suffix `REPORT`, yet no space is
reinserted, because `split_merged_uppercase_heading_word` additionally
requires the collapsed word to be more than 3 bytes longer than the suffix
(here 9 = 6 + 3 is not enough).  The claimed normalization `"ABC REPORT"` is
not produced. -/
theorem C9_counterexample :
    collapse_spaced_uppercase_letters "A B C R E P O R T".data = "ABCREPORT".data ∧
    "ABCREPORT".data ≠ "ABC REPORT".data := by
  constructor
  · decide
  · decide

/-- C9 (amended): a run of at least 3 single uppercase ASCII letters, each
separated by exactly one space, collapses into one word, and a space is
reinserted before a recognized heading suffix only when the collapsed word is
more than 3 characters longer than that suffix (the behaviour of
`split_merged_uppercase_heading_word`); in particular
`"Kimi K2 T E C H N I C A L R E P O R T"` normalizes to
`"Kimi K2 TECHNICAL REPORT"`. -/
theorem C9_letter_spacing_collapse :
    (∀ L : Str, (∀ c ∈ L, isAsciiUpper c = true) → 3 ≤ L.length →
      collapse_spaced_uppercase_letters (spaced_run L) =
        split_merged_uppercase_heading_word L) ∧
    collapse_spaced_uppercase_letters
        "Kimi K2 T E C H N I C A L R E P O R T".data =
      "Kimi K2 TECHNICAL REPORT".data := by
  constructor
  · exact collapse_of_spaced_run
  · decide

/-- Witness for C9 at the concrete run `"T E C"`. -/
theorem C9_witness :
    collapse_spaced_uppercase_letters "T E C".data = "TEC".data :=
  C9_letter_spacing_collapse.1 "TEC".data (by decide) (by decide)

/-! ## C1 -/

/-- A two-page document whose second page has a malformed content stream. -/
def c1doc : List (Except Str PdfPageModel) :=
  [.ok ⟨some (.ok [.textDraw "Hello there.".data, .textNewline]), []⟩,
   .ok ⟨some (.error "malformed".data), []⟩]

/-- C1 counterexample: a document that opens successfully but has one
malformed page content stream makes `extract_text_by_page` return an error
for the whole document — the first page's text is lost and no placeholder is
produced — contradicting the claimed page-level degradation to `Ok`. -/
theorem C1_counterexample :
    extract_text_by_page_native c1doc = .error "malformed".data := by
  decide

theorem collect_raw_error_of_failed (doc : List (Except Str PdfPageModel))
    (h : ∃ p ∈ doc, page_failed p = true) :
    ∃ e, collect_raw doc = .error e := by
  induction doc with
  | nil =>
    obtain ⟨p, hp, _⟩ := h
    exact absurd hp (List.not_mem_nil p)
  | cons q rest ih =>
    obtain ⟨p, hp, hf⟩ := h
    rcases List.mem_cons.mp hp with rfl | hmem
    · cases p with
      | error e => exact ⟨e, rfl⟩
      | ok page =>
        rcases hpc : page.contents with _ | pc
        · rw [page_failed, hpc] at hf
          exact Bool.noConfusion hf
        · cases pc with
          | error e =>
            refine ⟨e, ?_⟩
            simp [collect_raw, page_raw_lines, hpc]
          | ok ops =>
            rw [page_failed, hpc] at hf
            exact Bool.noConfusion hf
    · cases q with
      | error e => exact ⟨e, rfl⟩
      | ok page =>
        rcases hpl : page_raw_lines page with e | lines
        · exact ⟨e, by simp [collect_raw, hpl]⟩
        · obtain ⟨e, he⟩ := ih ⟨p, hmem, hf⟩
          exact ⟨e, by simp [collect_raw, hpl, he]⟩

/-- C1 (amended): a malformed or unreadable content stream on any page (or a
page that fails to read) aborts the whole extraction: the native path of
`extract_text_by_page` propagates the page-level error with `?` and returns
`Err` for the document, producing no pages at all. -/
theorem C1_page_failure_aborts (doc : List (Except Str PdfPageModel))
    (h : ∃ p ∈ doc, page_failed p = true) :
    ∃ e, extract_text_by_page_native doc = .error e := by
  obtain ⟨e, he⟩ := collect_raw_error_of_failed doc h
  exact ⟨e, by simp [extract_text_by_page_native, he]⟩

/-- Witness for C1 at the concrete two-page document. -/
theorem C1_witness : ∃ e, extract_text_by_page_native c1doc = .error e :=
  C1_page_failure_aborts c1doc
    ⟨.ok ⟨some (.error "malformed".data), []⟩,
     List.mem_cons_of_mem _ (List.mem_cons_self _ _), rfl⟩

/-! ## C2 -/

theorem placeholder_ne_nil (ps : List Str) :
    (if ps.isEmpty = true then [noReadableContent] else ps) ≠ [] := by
  split
  · simp
  · next h =>
    intro hnil
    exact h (by rw [hnil]; rfl)

theorem split_pdf_paragraphs_ne_nil (lines : List Str) :
    split_pdf_paragraphs lines ≠ [] :=
  placeholder_ne_nil _

theorem assemble_go_snd_ne_nil :
    ∀ (idx : Nat) (cleaned : List (List Str)) (pg : Str × List Str),
      pg ∈ assemble_go idx cleaned → pg.2 ≠ [] := by
  intro idx cleaned
  induction cleaned generalizing idx with
  | nil => intro pg hpg; exact absurd hpg (List.not_mem_nil pg)
  | cons lines rest ih =>
    intro pg hpg
    rcases List.mem_cons.mp hpg with rfl | hmem
    · exact split_pdf_paragraphs_ne_nil lines
    · exact ih (idx + 1) pg hmem

theorem assemble_pages_if_props (pages : List (Str × List Str))
    (hgo : ∀ pg ∈ pages, pg.2 ≠ []) :
    (if pages.isEmpty = true then [(pageLabel 1, [noReadableContent])] else pages) ≠ [] ∧
      ∀ pg ∈ (if pages.isEmpty = true then [(pageLabel 1, [noReadableContent])] else pages),
        pg.2 ≠ [] := by
  split
  · constructor
    · simp
    · intro pg hpg
      rcases List.mem_cons.mp hpg with rfl | hmem
      · simp
      · exact absurd hmem (List.not_mem_nil pg)
  · next h =>
    constructor
    · intro hnil
      exact h (by rw [hnil]; rfl)
    · exact hgo

theorem assemble_pages_props (cleaned : List (List Str)) :
    assemble_pages cleaned ≠ [] ∧
      ∀ pg ∈ assemble_pages cleaned, pg.2 ≠ [] :=
  assemble_pages_if_props (assemble_go 0 cleaned) (assemble_go_snd_ne_nil 0 cleaned)

/-- C2: for every document that opens successfully (the native extraction
returns `Ok`), the page list is nonempty and every page has at least one
paragraph; a page whose cleaned line list yields zero paragraphs produces
exactly the one placeholder paragraph, and a document yielding zero pages
produces exactly the one placeholder page. -/
theorem C2_every_page_has_paragraph :
    (∀ (doc : List (Except Str PdfPageModel)) (pages : List (Str × List Str)),
      extract_text_by_page_native doc = .ok pages →
      pages ≠ [] ∧ ∀ pg ∈ pages, pg.2 ≠ []) ∧
    split_pdf_paragraphs [] = [noReadableContent] ∧
    assemble_pages [] = [(pageLabel 1, [noReadableContent])] := by
  refine ⟨?_, by decide, by decide⟩
  intro doc pages h
  unfold extract_text_by_page_native at h
  rcases hcr : collect_raw doc with e | raw
  · rw [hcr] at h
    exact Except.noConfusion h
  · rw [hcr] at h
    injection h with h
    rw [← h]
    exact assemble_pages_props (clean_page_lines raw)

/-- A one-page document with one sentence of text. -/
def c2doc : List (Except Str PdfPageModel) :=
  [.ok ⟨some (.ok [.textDraw "Hello world.".data, .textNewline]), []⟩]

/-- Witness for C2 at a concrete one-page document. -/
theorem C2_witness :
    ([("Page 1".data, ["Hello world.".data])] : List (Str × List Str)) ≠ [] ∧
    ∀ pg ∈ ([("Page 1".data, ["Hello world.".data])] : List (Str × List Str)),
      pg.2 ≠ [] :=
  C2_every_page_has_paragraph.1 c2doc [("Page 1".data, ["Hello world.".data])]
    (by decide)

/-! ## C3 -/

/-- The unplaced image marker of the C3 demonstration. -/
def c3marker : Str := "[[PDF_IMAGE:/tmp/fig.png]]".data

/-- A one-page document with a caption-shaped line, a prose line, and one
image resource that is declared on the page but never drawn, so its marker is
appended by the fallback loop at page end. -/
def c3doc : List (Except Str PdfPageModel) :=
  [.ok ⟨some (.ok [.textDraw "Figure 1 shows.".data, .textNewline,
      .textDraw "More text follows.".data, .textNewline]),
    [("Im1".data, [c3marker])]⟩]

/-- C3 counterexample: `extract_text_by_page` never performs caption-aware
insertion — `insert_markers_after_captions` is defined but not invoked
anywhere in the pipeline.  For a page with a caption paragraph and an
unplaced marker, the extraction leaves the marker at page end, while the
claimed caption-aware placement (what `insert_markers_after_captions` itself
would compute) puts it immediately after the caption. -/
theorem C3_counterexample :
    extract_text_by_page_native c3doc =
      .ok [("Page 1".data,
        ["Figure 1 shows.".data, "More text follows.".data, c3marker])] ∧
    insert_markers_after_captions
        ["Figure 1 shows.".data, "More text follows.".data] [c3marker] =
      ["Figure 1 shows.".data, c3marker, "More text follows.".data] ∧
    (["Figure 1 shows.".data, "More text follows.".data, c3marker] : List Str) ≠
      ["Figure 1 shows.".data, c3marker, "More text follows.".data] := by
  refine ⟨by decide, by decide, by decide⟩

theorem insert_markers_go_nil_markers (lines : List Str) :
    insert_markers_go lines [] = lines := by
  induction lines with
  | nil => rfl
  | cons l rest ih =>
    unfold insert_markers_go
    split
    · rw [ih]
    · rw [ih]

theorem insert_markers_go_no_caption (lines ms : List Str)
    (h : ∀ l ∈ lines, looks_like_figure_or_table_caption l = false) :
    insert_markers_go lines ms = lines ++ ms := by
  induction lines with
  | nil => rfl
  | cons l rest ih =>
    have hl : looks_like_figure_or_table_caption l = false :=
      h l (List.mem_cons_self l rest)
    unfold insert_markers_go
    rw [hl]
    simp only [Bool.false_eq_true, if_false, List.cons_append]
    rw [ih (fun x hx => h x (List.mem_cons_of_mem l hx))]

theorem insert_markers_eq_go (lines ms : List Str) :
    insert_markers_after_captions lines ms = insert_markers_go lines ms := by
  unfold insert_markers_after_captions
  split
  · next h =>
    rw [List.isEmpty_eq_true.mp h, insert_markers_go_nil_markers]
  · split
    · next h =>
      rw [insert_markers_go_no_caption lines ms]
      intro l hl
      have := (List.all_eq_true.mp h) l hl
      simpa using this
    · rfl

theorem insert_markers_go_through (pre : List Str) :
    ∀ (rest ms : List Str),
      (∀ l ∈ pre, looks_like_figure_or_table_caption l = false) →
      insert_markers_go (pre ++ rest) ms = pre ++ insert_markers_go rest ms := by
  induction pre with
  | nil => intro rest ms _; rfl
  | cons p pre' ih =>
    intro rest ms h
    have hp : looks_like_figure_or_table_caption p = false :=
      h p (List.mem_cons_self p pre')
    have ihh := ih rest ms (fun x hx => h x (List.mem_cons_of_mem p hx))
    calc insert_markers_go ((p :: pre') ++ rest) ms
        = p :: insert_markers_go (pre' ++ rest) ms := by
          simp only [List.cons_append, insert_markers_go, hp,
            Bool.false_eq_true, if_false]
          rfl
      _ = p :: (pre' ++ insert_markers_go rest ms) := by rw [ihh]
      _ = (p :: pre') ++ insert_markers_go rest ms := rfl

/-- C3 (amended): `insert_markers_after_captions` implements caption-based
insertion at the line level — it walks the lines and places one not-yet-placed
marker immediately after each caption-shaped line in order, appending leftover
markers (and, when no caption exists, all markers) at the end — but
`extract_text_by_page` never invokes it, so extraction output shows unplaced
page markers appended at page end instead. -/
theorem C3_caption_insertion_shape :
    (∀ (lines markers : List Str),
      (∀ l ∈ lines, looks_like_figure_or_table_caption l = false) →
      insert_markers_after_captions lines markers = lines ++ markers) ∧
    (∀ (pre post ms : List Str) (cap m : Str),
      looks_like_figure_or_table_caption cap = true →
      (∀ l ∈ pre, looks_like_figure_or_table_caption l = false) →
      insert_markers_after_captions (pre ++ cap :: post) (m :: ms) =
        pre ++ cap :: m :: insert_markers_after_captions post ms) := by
  constructor
  · intro lines markers h
    rw [insert_markers_eq_go, insert_markers_go_no_caption lines markers h]
  · intro pre post ms cap m hcap hpre
    rw [insert_markers_eq_go, insert_markers_go_through pre (cap :: post) (m :: ms) hpre]
    unfold insert_markers_go
    rw [hcap]
    simp only [if_true]
    rw [insert_markers_eq_go post ms]

/-- Witness for C3 at a concrete page: one preceding prose line, one caption,
one trailing line, one marker. -/
theorem C3_witness :
    insert_markers_after_captions
        ["intro.".data, "Figure 2: x".data, "tail.".data] ["[[PDF_IMAGE:/m.png]]".data] =
      ["intro.".data, "Figure 2: x".data, "[[PDF_IMAGE:/m.png]]".data, "tail.".data] := by
  have h := C3_caption_insertion_shape.2 ["intro.".data] ["tail.".data] []
    "Figure 2: x".data "[[PDF_IMAGE:/m.png]]".data (by decide) (by decide)
  simpa using h

/-! ## C6 -/

theorem rustTrim_of_marker (L : Str) (h : is_pdf_image_marker L = true) :
    rustTrim L = L := by
  unfold is_pdf_image_marker at h
  rw [Bool.and_eq_true] at h
  obtain ⟨h1, h2⟩ := h
  obtain ⟨t, ht⟩ := List.isPrefixOf_iff_prefix.mp h1
  obtain ⟨s, hs⟩ := List.isSuffixOf_iff_suffix.mp h2
  have hL : L = '[' :: ('['  :: ("PDF_IMAGE:".data ++ t)) := by
    rw [← ht]; rfl
  have hrev : L.reverse = ']' :: (']' :: s.reverse) := by
    rw [← hs, List.reverse_append]; rfl
  have w1 : rustIsWhitespace '[' = false := by decide
  have w2 : rustIsWhitespace ']' = false := by decide
  have d1 : L.dropWhile rustIsWhitespace = L := by
    rw [hL, List.dropWhile_cons, w1]
    simp
  have d2 : L.reverse.dropWhile rustIsWhitespace = L.reverse := by
    rw [hrev, List.dropWhile_cons, w2]
    simp
  unfold rustTrim
  rw [d1, d2, List.reverse_reverse]

theorem marker_not_page_number (L : Str) (h : is_pdf_image_marker L = true) :
    is_probable_page_number L = false := by
  have htrim : rustTrim L = L := rustTrim_of_marker L h
  unfold is_pdf_image_marker at h
  rw [Bool.and_eq_true] at h
  obtain ⟨t, ht⟩ := List.isPrefixOf_iff_prefix.mp h.1
  have hL : L = '[' :: ('[' :: ("PDF_IMAGE:".data ++ t)) := by
    rw [← ht]; rfl
  unfold is_probable_page_number
  rw [htrim]
  have hne : L.isEmpty = false := by rw [hL]; rfl
  by_cases hbig : 24 < utf8Len L
  · rw [if_pos (by rw [hne]; simp [hbig])]
  · rw [if_neg (by rw [hne]; simp [hbig])]
    have hd : isAsciiDigit '[' = false := by decide
    have b1 : L.all isAsciiDigit = false := by
      rw [hL, List.all_cons, hd]; rfl
    have b2 : "Page ".data.isPrefixOf L = false := by
      rw [hL]
      have : ('P' == '[') = false := by decide
      simp [List.isPrefixOf, this]
    have b3 : (L.filter (fun c => c ≠ ' ')).all
        (fun c => isAsciiDigit c || c = '/' || c = '-' || c = '–' || c = '_') = false := by
      rw [hL, List.filter_cons]
      have hsp : ('[' ≠ ' ') := by decide
      rw [if_pos (by simp)]
      rw [List.all_cons]
      have : (isAsciiDigit '[' || '[' = '/' || '[' = '-' || '[' = '–' || '[' = '_') = false := by
        decide
      rw [this]
      rfl
    rw [b1, b2]
    simp only [Bool.false_eq_true, if_false, Bool.false_and]
    rw [b3]
    simp

theorem clean_one_page_no_page_number (pages : List (List Str)) (N : Nat)
    (edges : List Nat) :
    ∀ (idx : Nat) (lines : List Str) (L : Str),
      L ∈ clean_one_page pages N edges idx lines →
      is_probable_page_number L = false := by
  intro idx lines
  induction lines generalizing idx with
  | nil => intro L hL; exact absurd hL (List.not_mem_nil L)
  | cons l rest ih =>
    intro L hL
    unfold clean_one_page at hL
    cases hk : clean_line_keep pages N edges idx l with
    | none =>
      rw [hk] at hL
      exact ih (idx + 1) L hL
    | some s =>
      rw [hk] at hL
      rcases List.mem_cons.mp hL with rfl | hmem
      · -- the kept line comes from the marker branch or the final branch
        simp only [clean_line_keep] at hk
        revert hk
        split
        · intro hk; exact Option.noConfusion hk
        · split
          · next hmark =>
            intro hk
            injection hk with hk
            rw [← hk]
            exact marker_not_page_number _ hmark
          · split
            · intro hk; exact Option.noConfusion hk
            · split
              · intro hk; exact Option.noConfusion hk
              · next hnum _ =>
                intro hk
                injection hk with hk
                rw [← hk]
                simp at hnum
                exact hnum
      · exact ih (idx + 1) L hmem

/-- A 25-digit line: pure digits, but longer than the 24-byte bound of
`is_probable_page_number`. -/
def digits25 : Str := "1111111111111111111111111".data

/-- C6 counterexample: a 25-digit line matches the claimed "pure digits"
page-number shape, yet `clean_page_lines` keeps it, because
`is_probable_page_number` additionally requires the trimmed line to be at
most 24 bytes long. -/
theorem C6_counterexample :
    digits25.all isAsciiDigit = true ∧
    clean_page_lines [[digits25]] = [[digits25]] := by
  constructor
  · decide
  · decide

/-- C6 (amended): any line matching the probable page-number shape — pure
digits, `Page N`, or digits with `/`, `-`, `–`, `_` separators, of at most 24
bytes after trimming — is removed regardless of frequency or position: no
line of the output of `clean_page_lines` satisfies `is_probable_page_number`;
in particular lone `"42"` and `"Page 7"` lines are always removed. -/
theorem C6_page_numbers_removed :
    (∀ (pl : List (List Str)), ∀ out ∈ clean_page_lines pl, ∀ L ∈ out,
      is_probable_page_number L = false) ∧
    clean_page_lines [["42".data, "keep me.".data], ["Page 7".data, "keep too.".data]] =
      [["keep me.".data], ["keep too.".data]] := by
  constructor
  · intro pl out hout L hL
    unfold clean_page_lines at hout
    revert hout
    split
    · next hemp =>
      intro hout
      rw [List.isEmpty_eq_true.mp hemp] at hout
      exact absurd hout (List.not_mem_nil out)
    · intro hout
      obtain ⟨lines, _, rfl⟩ := List.mem_map.mp hout
      exact clean_one_page_no_page_number pl pl.length
        (edge_line_indices lines.length) 0 lines L hL
  · decide

/-- Witness for C6 at a concrete page. -/
theorem C6_witness :
    is_probable_page_number "hello there.".data = false :=
  C6_page_numbers_removed.1 [["hello there.".data]] ["hello there.".data]
    (by decide) "hello there.".data (by decide)

/-! ## C5 -/

theorem is_repeated_edge_noise_true (L : Str) (N seen eon : Nat)
    (hN : 4 ≤ N) (hlen : utf8Len L ≤ 90) (hseen : 3 ≤ seen)
    (hr : seen ≤ eon * 2) :
    is_repeated_edge_noise L N seen eon true = true := by
  unfold is_repeated_edge_noise
  rw [if_neg (by simp; omega), if_neg (by omega), if_neg (by omega)]
  exact decide_eq_true hr

theorem is_repeated_edge_noise_false_nonedge (L : Str) (N seen eon : Nat) :
    is_repeated_edge_noise L N seen eon false = false := by
  unfold is_repeated_edge_noise
  simp

theorem clean_line_keep_some (pl : List (List Str)) (N : Nat)
    (edges : List Nat) (idx : Nat) (l s : Str)
    (h : clean_line_keep pl N edges idx l = some s) :
    s = normalize_whitespace l := by
  simp only [clean_line_keep] at h
  revert h
  split
  · exact fun h => Option.noConfusion h
  · split
    · intro h; injection h with h; exact h.symm
    · split
      · exact fun h => Option.noConfusion h
      · split
        · exact fun h => Option.noConfusion h
        · intro h; injection h with h; exact h.symm

theorem clean_line_keep_none_of_noise (pl : List (List Str)) (N : Nat)
    (edges : List Nat) (idx : Nat) (l L : Str)
    (hnorm : normalize_whitespace l = L)
    (hm : is_pdf_image_marker L = false)
    (hedge : edges.contains idx = true)
    (hN : 4 ≤ N) (hlen : utf8Len L ≤ 90)
    (hseen : 3 ≤ line_count pl L)
    (hratio : line_count pl L ≤ 2 * edge_count pl L) :
    clean_line_keep pl N edges idx l = none := by
  have hnoise := is_repeated_edge_noise_true L N (line_count pl L)
    (edge_count pl L) hN hlen hseen (by omega)
  simp only [clean_line_keep]
  rw [hnorm, hedge]
  by_cases hE : L.isEmpty = true
  · simp [hE]
  · by_cases hpn : is_probable_page_number L = true
    · simp [hE, hm, hpn]
    · simp [hE, hm, hpn, hnoise]

theorem clean_line_keep_some_of (pl : List (List Str)) (N : Nat)
    (edges : List Nat) (idx : Nat) (l L : Str)
    (hnorm : normalize_whitespace l = L) (hne : L ≠ [])
    (hpn : is_probable_page_number L = false)
    (hedge : edges.contains idx = false) :
    clean_line_keep pl N edges idx l = some L := by
  have hnoise := is_repeated_edge_noise_false_nonedge L N (line_count pl L)
    (edge_count pl L)
  simp only [clean_line_keep]
  rw [hnorm, hedge]
  by_cases hmk : is_pdf_image_marker L = true
  · simp [List.isEmpty_eq_false.mpr hne, hmk]
  · simp [List.isEmpty_eq_false.mpr hne, hmk, hpn, hnoise]

theorem clean_one_page_drops_all_edge (pl : List (List Str)) (N : Nat)
    (edges : List Nat) (L : Str)
    (hN : 4 ≤ N) (hm : is_pdf_image_marker L = false) (hlen : utf8Len L ≤ 90)
    (hseen : 3 ≤ line_count pl L)
    (hratio : line_count pl L ≤ 2 * edge_count pl L) :
    ∀ (idx : Nat) (lines : List Str),
      all_edges_in_page L edges idx lines = true →
      L ∉ clean_one_page pl N edges idx lines := by
  intro idx lines
  induction lines generalizing idx with
  | nil => intro _ hL; exact absurd hL (List.not_mem_nil L)
  | cons l rest ih =>
    intro hall hL
    unfold all_edges_in_page at hall
    rw [Bool.and_eq_true] at hall
    obtain ⟨hhead, htail⟩ := hall
    unfold clean_one_page at hL
    cases hk : clean_line_keep pl N edges idx l with
    | none =>
      rw [hk] at hL
      exact ih (idx + 1) htail hL
    | some s =>
      rw [hk] at hL
      rcases List.mem_cons.mp hL with rfl | hmem
      · have hs : L = normalize_whitespace l :=
          clean_line_keep_some pl N edges idx l L hk
        have hedge : edges.contains idx = true := by
          rw [Bool.or_eq_true] at hhead
          rcases hhead with hb | hb
          · exfalso
            rw [bne_iff_ne] at hb
            exact hb hs.symm
          · exact hb
        rw [clean_line_keep_none_of_noise pl N edges idx l L hs.symm hm hedge
          hN hlen hseen hratio] at hk
        exact Option.noConfusion hk
      · exact ih (idx + 1) htail hmem

theorem clean_one_page_keeps_nonedge (pl : List (List Str)) (N : Nat)
    (edges : List Nat) :
    ∀ (lines : List Str) (idx j : Nat) (l L : Str),
      lines[j]? = some l → normalize_whitespace l = L → L ≠ [] →
      is_probable_page_number L = false →
      edges.contains (idx + j) = false →
      L ∈ clean_one_page pl N edges idx lines := by
  intro lines
  induction lines with
  | nil =>
    intro idx j l L hj
    simp at hj
  | cons x rest ih =>
    intro idx j l L hj hnorm hne hpn hedge
    cases j with
    | zero =>
      rw [List.getElem?_cons_zero] at hj
      injection hj with hj
      subst hj
      unfold clean_one_page
      have hk := clean_line_keep_some_of pl N edges idx x L hnorm hne hpn
        (by simpa using hedge)
      simp only [hk]
      exact List.mem_cons_self _ _
    | succ j' =>
      unfold clean_one_page
      have hj' : rest[j']? = some l := by simpa using hj
      have hshift : (idx + 1) + j' = idx + (j' + 1) := by omega
      have hmem := ih (idx + 1) j' l L hj' hnorm hne hpn (by rw [hshift]; exact hedge)
      cases hk : clean_line_keep pl N edges idx x with
      | none => simp only [hk]; exact hmem
      | some s => simp only [hk]; exact List.mem_cons_of_mem s hmem

/-- The 4-page document of the C5 demonstration: the short line `"Header"`
occurs at an edge position on pages 1-3 and mid-page (index 2 of 5 lines) on
page 4. -/
def pl5 : List (List Str) :=
  [["Header".data, "body one.".data],
   ["Header".data, "body two.".data],
   ["Header".data, "body three.".data],
   ["a.".data, "b.".data, "Header".data, "c.".data, "d.".data]]

/-- C5 counterexample: `"Header"` satisfies every removal condition of the
claim — 4 pages, 6 bytes ≤ 90, 4 occurrences ≥ 3, 3 of 4 at edges (at least
half) — and its edge occurrences are removed, yet it is NOT absent from every
page's output: the mid-page occurrence on page 4 survives. -/
theorem C5_counterexample :
    clean_page_lines pl5 =
      [["body one.".data], ["body two.".data], ["body three.".data],
       ["a.".data, "b.".data, "Header".data, "c.".data, "d.".data]] ∧
    utf8Len "Header".data ≤ 90 ∧
    3 ≤ line_count pl5 "Header".data ∧
    line_count pl5 "Header".data ≤ 2 * edge_count pl5 "Header".data ∧
    "Header".data ∈
      (["a.".data, "b.".data, "Header".data, "c.".data, "d.".data] : List Str) := by
  refine ⟨by decide, by decide, by decide, by decide, by decide⟩

/-- C5 (amended): under the code's removal conditions (at least 4 pages, at
most 90 bytes, at least 3 occurrences, at least half of them at edge
positions) a non-token line is removed at each of its EDGE occurrences only:
when all of its occurrences sit at edge positions it is absent from every
page's output, while an occurrence at a non-edge position always survives. -/
theorem C5_edge_noise_removal :
    (∀ (pl : List (List Str)) (L : Str),
      4 ≤ pl.length → is_pdf_image_marker L = false → utf8Len L ≤ 90 →
      3 ≤ line_count pl L → line_count pl L ≤ 2 * edge_count pl L →
      all_occurrences_on_edges pl L = true →
      ∀ out ∈ clean_page_lines pl, L ∉ out) ∧
    (∀ (pl : List (List Str)) (i j : Nat) (lines : List Str) (l L : Str),
      pl[i]? = some lines → lines[j]? = some l → normalize_whitespace l = L →
      L ≠ [] → is_probable_page_number L = false →
      (edge_line_indices lines.length).contains j = false →
      ∃ out, (clean_page_lines pl)[i]? = some out ∧ L ∈ out) := by
  constructor
  · intro pl L hN hm hlen hseen hratio hall out hout
    unfold clean_page_lines at hout
    revert hout
    split
    · next hemp =>
      intro hout
      rw [List.isEmpty_eq_true.mp hemp] at hN
      simp at hN
    · intro hout
      obtain ⟨lines, hlin, rfl⟩ := List.mem_map.mp hout
      exact clean_one_page_drops_all_edge pl pl.length
        (edge_line_indices lines.length) L hN hm hlen hseen hratio 0 lines
        ((List.all_eq_true.mp hall) lines hlin)
  · intro pl i j lines l L hi hj hnorm hne hpn hedge
    refine ⟨clean_one_page pl pl.length (edge_line_indices lines.length) 0 lines,
      ?_, ?_⟩
    · unfold clean_page_lines
      cases pl with
      | nil => simp at hi
      | cons a as =>
        rw [if_neg (by simp)]
        rw [List.getElem?_map, hi]
        rfl
    · exact clean_one_page_keeps_nonedge pl pl.length
        (edge_line_indices lines.length) lines 0 j l L hj hnorm hne hpn
        (by simpa using hedge)

/-- Witness for C5: an all-edge instance where the header is gone from the
first page's output, and the non-edge instance of `pl5` where it survives. -/
theorem C5_witness :
    "Header".data ∉ (["x1.".data] : List Str) ∧
    ∃ out, (clean_page_lines pl5)[3]? = some out ∧ "Header".data ∈ out :=
  ⟨C5_edge_noise_removal.1
      [["Header".data, "x1.".data], ["Header".data, "x2.".data],
       ["Header".data, "x3.".data], ["keep.".data, "also.".data]]
      "Header".data (by decide) (by decide) (by decide) (by decide) (by decide)
      (by decide) ["x1.".data] (by decide),
   C5_edge_noise_removal.2 pl5 3 2
     ["a.".data, "b.".data, "Header".data, "c.".data, "d.".data]
     "Header".data "Header".data (by decide) (by decide) (by decide)
     (by decide) (by decide) (by decide)⟩

/-! ## C8 -/

theorem marker_isEmpty_false (L : Str) (h : is_pdf_image_marker L = true) :
    L.isEmpty = false := by
  cases L with
  | nil => exact absurd h (by decide)
  | cons c rest => rfl

theorem clean_line_keep_marker (pl : List (List Str)) (N : Nat)
    (edges : List Nat) (idx : Nat) (l : Str)
    (h : is_pdf_image_marker (normalize_whitespace l) = true) :
    clean_line_keep pl N edges idx l = some (normalize_whitespace l) := by
  simp only [clean_line_keep]
  simp [marker_isEmpty_false _ h, h]

theorem clean_one_page_keeps_marker (pl : List (List Str)) (N : Nat)
    (edges : List Nat) :
    ∀ (idx : Nat) (lines : List Str) (l : Str), l ∈ lines →
      is_pdf_image_marker (normalize_whitespace l) = true →
      normalize_whitespace l ∈ clean_one_page pl N edges idx lines := by
  intro idx lines
  induction lines generalizing idx with
  | nil => intro l hl; exact absurd hl (List.not_mem_nil l)
  | cons x rest ih =>
    intro l hl hm
    rcases List.mem_cons.mp hl with rfl | hmem
    · unfold clean_one_page
      simp only [clean_line_keep_marker pl N edges idx l hm]
      exact List.mem_cons_self _ _
    · unfold clean_one_page
      cases hk : clean_line_keep pl N edges idx x with
      | none => simp only []; exact ih (idx + 1) l hmem hm
      | some s => simp only []; exact List.mem_cons_of_mem s (ih (idx + 1) l hmem hm)

theorem split_step_marker (st : SplitState) (line : Str)
    (h : is_pdf_image_marker (rustTrim line) = true) :
    split_step st line =
      ⟨(if st.current.isEmpty then st.paragraphs
          else st.paragraphs ++ [rustTrim st.current]) ++ [rustTrim line],
        [],
        if st.current.isEmpty then st.current_is_table else false⟩ := by
  simp only [split_step, h, if_true]

theorem split_step_paragraphs_mono (st : SplitState) (line : Str) (p : Str)
    (hp : p ∈ st.paragraphs) : p ∈ (split_step st line).paragraphs := by
  unfold split_step
  simp only [apply_ite SplitState.paragraphs]
  split_ifs <;> simp [hp, List.mem_append]

theorem split_fold_paragraphs_mono :
    ∀ (ls : List Str) (st : SplitState) (p : Str), p ∈ st.paragraphs →
      p ∈ (ls.foldl split_step st).paragraphs := by
  intro ls
  induction ls with
  | nil => intro st p hp; exact hp
  | cons l rest ih =>
    intro st p hp
    rw [List.foldl_cons]
    exact ih (split_step st l) p (split_step_paragraphs_mono st l p hp)

theorem mem_placeholder_of_mem (ps : List Str) (p : Str) (hp : p ∈ ps) :
    p ∈ (if ps.isEmpty = true then [noReadableContent] else ps) := by
  split
  · next hemp =>
    rw [List.isEmpty_eq_true.mp hemp] at hp
    exact absurd hp (List.not_mem_nil p)
  · exact hp

theorem split_keeps_marker (lines : List Str) (l : Str) (hl : l ∈ lines)
    (h : is_pdf_image_marker (rustTrim l) = true) :
    rustTrim l ∈ split_pdf_paragraphs lines := by
  obtain ⟨s, t, rfl⟩ := List.append_of_mem hl
  have hstep : rustTrim l ∈
      ((s ++ l :: t).foldl split_step ⟨[], [], false⟩).paragraphs := by
    rw [List.foldl_append, List.foldl_cons]
    refine split_fold_paragraphs_mono t _ (rustTrim l) ?_
    rw [split_step_marker _ l h]
    simp
  unfold split_pdf_paragraphs
  have hps : rustTrim l ∈
      (if ((s ++ l :: t).foldl split_step ⟨[], [], false⟩).current.isEmpty then
        ((s ++ l :: t).foldl split_step ⟨[], [], false⟩).paragraphs
      else ((s ++ l :: t).foldl split_step ⟨[], [], false⟩).paragraphs ++
        [normalize_pdf_paragraph_text
          ((s ++ l :: t).foldl split_step ⟨[], [], false⟩).current]) := by
    split
    · exact hstep
    · exact List.mem_append_left _ hstep
  exact mem_placeholder_of_mem _ _ hps

/-- C8: Image Reference Token lines are exempt from all noise classification
and are never merged with text: (i) `clean_page_lines` keeps every line whose
normalized text is a marker, in every page; (ii) in `split_pdf_paragraphs` a
marker line flushes the accumulating paragraph (trimmed) and is emitted as its
own standalone paragraph, clearing the accumulator; (iii) consequently every
marker line of a page appears among the page's paragraphs. -/
theorem C8_markers_exempt :
    (∀ (pl : List (List Str)) (lines : List Str) (l : Str),
      lines ∈ pl → l ∈ lines →
      is_pdf_image_marker (normalize_whitespace l) = true →
      ∃ out, out ∈ clean_page_lines pl ∧ normalize_whitespace l ∈ out) ∧
    (∀ (st : SplitState) (line : Str),
      is_pdf_image_marker (rustTrim line) = true →
      split_step st line =
        ⟨(if st.current.isEmpty then st.paragraphs
            else st.paragraphs ++ [rustTrim st.current]) ++ [rustTrim line],
          [],
          if st.current.isEmpty then st.current_is_table else false⟩) ∧
    (∀ (lines : List Str) (l : Str), l ∈ lines →
      is_pdf_image_marker (rustTrim l) = true →
      rustTrim l ∈ split_pdf_paragraphs lines) := by
  refine ⟨?_, split_step_marker, split_keeps_marker⟩
  intro pl lines l hlin hl hm
  refine ⟨clean_one_page pl pl.length (edge_line_indices lines.length) 0 lines,
    ?_, clean_one_page_keeps_marker pl pl.length _ 0 lines l hl hm⟩
  unfold clean_page_lines
  rw [if_neg (by simp [List.isEmpty_eq_false.mpr (List.ne_nil_of_mem hlin)])]
  exact List.mem_map.mpr ⟨lines, hlin, rfl⟩

/-- Witness for C8 at concrete pages and states. -/
theorem C8_witness :
    (∃ out, out ∈ clean_page_lines [["[[PDF_IMAGE:/a.png]]".data, "42".data]] ∧
      normalize_whitespace "[[PDF_IMAGE:/a.png]]".data ∈ out) ∧
    rustTrim "[[PDF_IMAGE:/b.png]]".data ∈
      split_pdf_paragraphs ["some text".data, "[[PDF_IMAGE:/b.png]]".data] :=
  ⟨C8_markers_exempt.1 [["[[PDF_IMAGE:/a.png]]".data, "42".data]]
      ["[[PDF_IMAGE:/a.png]]".data, "42".data] "[[PDF_IMAGE:/a.png]]".data
      (by decide) (by decide) (by decide),
   C8_markers_exempt.2.2 ["some text".data, "[[PDF_IMAGE:/b.png]]".data]
     "[[PDF_IMAGE:/b.png]]".data (by decide) (by decide)⟩

end EReader
